import Mathlib

/-!
Shallow embedding of the mocklite core (src/core/db.ts, src/core/seeder.ts,
src/core/server.ts) and proofs about its schema-to-storage-to-query engine.

Conventions of the embedding:
* JavaScript scalar values are modelled by `Mocklite.Value`
  (null / integer / string / boolean).  Machine floats never arise in the
  claims under study; numeric route parameters are modelled for canonical
  integer numerals (see `strToIntOpt`).
* Fallible code (throw / try-catch) is modelled with `Except String`.
* The SQLite store is an external collaborator: it is modelled as an
  association list from table name to row list, storing values verbatim and
  assigning auto-increment primary keys on insert.
* Randomness (ORDER BY RANDOM, faker calls) is modelled by explicit oracle
  parameters.
-/

namespace Mocklite

/-- JavaScript scalar values as they occur in rows, request bodies and
generated data. -/
inductive Value where
  | vNull
  | vInt (n : Int)
  | vStr (s : String)
  | vBool (b : Bool)
deriving DecidableEq, Repr

/-- A field definition from mocklite.config.json (src/core/types.ts
`FieldType`): either a bare string (`"pk"`, `"fk:table.col"`, a faker path,
or a literal) or an object `{ type, options?, values? }`.  The opaque
options bag is kept as an optional string token. -/
inductive FieldDef where
  | fstr (s : String)
  | fobj (type : String) (options : Option String) (values : Option (List Value))
deriving DecidableEq, Repr

/-- One table of the configuration (src/core/types.ts `TableSchema`);
`fields` is an ordered association list, as `Object.entries` preserves
insertion order. -/
structure TableSchema where
  table : String
  seed : Option Nat
  fields : List (String × FieldDef)
deriving DecidableEq, Repr

/-- The configuration consumed by the core (src/core/types.ts
`MockliteConfig`); only the schema matters for the claims. -/
structure MockliteConfig where
  schema : List TableSchema
deriving DecidableEq, Repr

/-- First-occurrence association-list lookup, the JS `obj[key]` /
`Array.prototype.find` access pattern used throughout the source. -/
def lookupKey {α : Type} (k : String) : List (String × α) → Option α
  | [] => none
  | (k', v) :: rest => if k' = k then some v else lookupKey k rest

/-- Replace the value of the first entry with the given key, leaving the
list unchanged when the key is absent. -/
def setKey {α : Type} (k : String) (v : α) : List (String × α) → List (String × α)
  | [] => []
  | (k', v') :: rest => if k' = k then (k, v) :: rest else (k', v') :: setKey k v rest

/-- Does the first list start with the second one? -/
def listStartsWith : List Char → List Char → Bool
  | _, [] => true
  | [], _ :: _ => false
  | a :: as, b :: bs => a = b && listStartsWith as bs

/-- Does `pat` occur as a contiguous run inside the second list? -/
def listInfix (pat : List Char) : List Char → Bool
  | [] => listStartsWith [] pat
  | c :: rest => listStartsWith (c :: rest) pat || listInfix pat rest

/-- JS `String.prototype.startsWith` for the literal patterns the source
uses. -/
def strStartsWith (s pat : String) : Bool :=
  listStartsWith s.data pat.data

/-- JS `String.prototype.includes`. -/
def strContains (s pat : String) : Bool :=
  listInfix pat.data s.data

/-- Drop the given number of leading elements. -/
def listDrop {α : Type} : Nat → List α → List α
  | 0, l => l
  | _, [] => []
  | n + 1, _ :: rest => listDrop n rest

/-- Remove the first occurrence of `pat`, or `none` when it does not
occur. -/
def replaceFirstAux (pat : List Char) : List Char → Option (List Char)
  | [] => if pat = [] then some [] else none
  | c :: rest =>
    if listStartsWith (c :: rest) pat then some (listDrop pat.length (c :: rest))
    else (replaceFirstAux pat rest).map (fun l => c :: l)

/-- JS `String.prototype.replace(pat, "")`: remove the first occurrence of
`pat`, if any. -/
def jsReplaceFirst (s pat : String) : String :=
  match replaceFirstAux pat.data s.data with
  | none => s
  | some cs => ⟨cs⟩

/-- Split a character list on a single separator character. -/
def splitOnCharAux (sep : Char) : List Char → List Char → List (List Char)
  | [], acc => [acc.reverse]
  | c :: rest, acc =>
    if c = sep then acc.reverse :: splitOnCharAux sep rest []
    else splitOnCharAux sep rest (c :: acc)

/-- JS `String.prototype.split` with a one-character separator (the only
separators the source uses are ":" and "."). -/
def jsSplitChar (s : String) (sep : Char) : List String :=
  (splitOnCharAux sep s.data []).map (fun cs => ⟨cs⟩)

/-- Parse a run of decimal digits (accumulator style; `none` when a
non-digit appears or the run is empty). -/
def parseDigitsList : List Char → Option Nat → Option Nat
  | [], acc => acc
  | c :: rest, acc =>
    if c.isDigit then
      parseDigitsList rest (some ((acc.getD 0) * 10 + (c.toNat - 48)))
    else none

/-- Parse a canonical decimal numeral (optionally signed).  Models the
JavaScript `Number()` coercion on the route-parameter strings that matter
here: the empty string coerces to `0`, canonical integer numerals to their
value, anything else to NaN (`none`). -/
def strToIntOpt (s : String) : Option Int :=
  match s.data with
  | [] => some 0
  | '-' :: rest => (parseDigitsList rest none).map (fun n => -(n : Int))
  | l => (parseDigitsList l none).map Int.ofNat

/-- `Number(x)` for an optional query parameter: an absent parameter is
`undefined`, which coerces to NaN. -/
def jsNumber : Option String → Option Int
  | none => none
  | some s => strToIntOpt s

/-- JS `x || d` for a numeric `x`: NaN and `0` are falsy and fall back to
the default; every other number (negatives included) is kept. -/
def jsOr (v : Option Int) (d : Int) : Int :=
  match v with
  | none => d
  | some n => if n = 0 then d else n

/-- `Math.ceil(a / b)` on integers, for `b ≠ 0` (the only case reached by
the code, since the limit fallback excludes 0). -/
def jsCeilDiv (a b : Int) : Int :=
  -(Int.fdiv (-a) b)

end Mocklite

/-- Decidable equality for `Except`, needed to state concrete evaluations
of fallible operations. -/
instance {ε α : Type} [DecidableEq ε] [DecidableEq α] : DecidableEq (Except ε α) := fun x y =>
  match x, y with
  | .ok a, .ok b =>
    if h : a = b then .isTrue (by rw [h]) else .isFalse (by simp [h])
  | .ok _, .error _ => .isFalse (by simp)
  | .error _, .ok _ => .isFalse (by simp)
  | .error e, .error f =>
    if h : e = f then .isTrue (by rw [h]) else .isFalse (by simp [h])

namespace Mocklite

/- ------------------------------------------------------------------
src/core/db.ts : the schema compiler
------------------------------------------------------------------ -/

/-- Physical column type produced by the schema compiler. -/
inductive ColType where
  | integer
  | text
deriving DecidableEq, Repr

/-- A compiled physical column (the Kysely `addColumn` call issued by
`MockDatabase.parseField`).  `references` holds the literal
`table.column` reference pair; a missing column part interpolates as the
string "undefined", exactly as the template literal in the source does. -/
structure Column where
  name : String
  colType : ColType
  primaryKey : Bool
  autoIncrement : Bool
  references : Option (String × String)
  onDeleteCascade : Bool
deriving DecidableEq, Repr

/-- `def.split(":")[1]` of a `fk:` definition — the `table.column` target
text; the empty string stands for a missing or empty part (both falsy). -/
def fkTail (s : String) : String :=
  ((jsSplitChar s ':').get? 1).getD ""

/-- `target.split(".")[0]` — the table part of a `fk:` target. -/
def fkTable (s : String) : String :=
  (jsSplitChar (fkTail s) '.').headD ""

/-- `target.split(".")[1]` — the column part of a `fk:` target, the empty
string standing for a missing (undefined) part, as the seeder's falsiness
test treats both alike. -/
def fkCol (s : String) : String :=
  ((jsSplitChar (fkTail s) '.').get? 1).getD ""

/-- The column part as it is interpolated into the `references` template
literal in db.ts: a missing part prints as "undefined". -/
def fkColOrUndef (s : String) : String :=
  ((jsSplitChar (fkTail s) '.').get? 1).getD "undefined"

/-- `MockDatabase.parseField` (src/core/db.ts lines 50-96): translate one
field definition into a physical column, throwing only when a `"fk:"`
definition has nothing after the colon. -/
def parseField (name : String) (d : FieldDef) : Except String Column :=
  match d with
  | .fstr s =>
    if s = "pk" then
      .ok ⟨name, .integer, true, true, none, false⟩
    else if strStartsWith s "fk:" then
      if fkTail s = "" then
        .error ("Invalid FK definition: " ++ s)
      else
        .ok ⟨name, .integer, false, false, some (fkTable s, fkColOrUndef s), true⟩
    else if strContains s "number" || strContains s "int" then
      .ok ⟨name, .integer, false, false, none, false⟩
    else if strContains s "boolean" then
      .ok ⟨name, .integer, false, false, none, false⟩
    else
      .ok ⟨name, .text, false, false, none, false⟩
  | .fobj _ _ _ => .ok ⟨name, .text, false, false, none, false⟩

/- ------------------------------------------------------------------
src/core/server.ts : filters and pagination of the list endpoint
------------------------------------------------------------------ -/

/-- Predicate operator used by the query augmenter. -/
inductive FilterOp where
  | eq
  | like
deriving DecidableEq, Repr

/-- One WHERE predicate pushed onto a query. -/
structure Filter where
  key : String
  op : FilterOp
  value : String
deriving DecidableEq, Repr

/-- JS truthiness of `table.fields[key]`: `undefined` and the empty string
are falsy, every object is truthy. -/
def jsTruthyDef : Option FieldDef → Bool
  | none => false
  | some (.fstr s) => s ≠ ""
  | some (.fobj _ _ _) => true

/-- One iteration of the filter loop (src/core/server.ts lines 160-183):
decide whether a request parameter becomes a predicate and which operator
it gets. -/
def filterFor (t : TableSchema) (k v : String) : Option Filter :=
  let fieldDef := lookupKey k t.fields
  let isId := k = "id"
  if jsTruthyDef fieldDef || isId then
    some (if isId then ⟨k, .eq, v⟩
      else match fieldDef with
        | some (.fstr s) =>
          if !strContains s "boolean" && !strContains s "number" && !strContains s "int"
          then ⟨k, .like, "%" ++ v ++ "%"⟩
          else ⟨k, .eq, v⟩
        | _ => ⟨k, .eq, v⟩)
  else none

/-- The filter loop, pushing every matched predicate onto both the count
query and the data query, in parameter order. -/
def buildQueries (t : TableSchema) (params : List (String × String)) :
    List Filter × List Filter :=
  params.foldl
    (fun acc p =>
      match filterFor t p.1 p.2 with
      | some f => (acc.1 ++ [f], acc.2 ++ [f])
      | none => acc)
    ([], [])

/- ------------------------------------------------------------------
src/core/server.ts : applyRelation (the relation resolver)
------------------------------------------------------------------ -/

/-- `this.config.schema.find((t) => t.table === name)`. -/
def findTable (cfg : MockliteConfig) (name : String) : Option TableSchema :=
  cfg.schema.find? (fun t => t.table == name)

/-- `getColumns` in `applyRelation`: the declared field names of a table,
or `[]` for an unknown table. -/
def getColumns (cfg : MockliteConfig) (tableName : String) : List String :=
  match findTable cfg tableName with
  | some t => t.fields.map Prod.fst
  | none => []

/-- The query augmentation that `applyRelation` produces. -/
inductive RelAug where
  | belongsTo (key targetTable : String) (columns : List String) (onLeft onRight : String)
  | hasMany (key targetTable : String) (columns : List String) (onLeft onRight : String)
  | noop
deriving DecidableEq, Repr

/-- The belongs-to match test of `applyRelation` (src/core/server.ts lines
334-339): the field is a string `fk:` definition and the include token
equals the fk target table or the field name with its first `"Id"`
removed. -/
def btMatch (tok field : String) (d : FieldDef) : Bool :=
  match d with
  | .fstr s =>
    strStartsWith s "fk:" && (tok == fkTable s || tok == jsReplaceFirst field "Id")
  | .fobj _ _ _ => false

/-- The augmentation built for a belongs-to match (src/core/server.ts lines
346-363): throws when the parsed target table is empty, otherwise embeds a
single object under the token key, joined on `targetTable.id =
currentTable.field`, selecting the target's declared columns. -/
def btResult (cfg : MockliteConfig) (ct tok field : String) (d : FieldDef) :
    Except String RelAug :=
  match d with
  | .fstr s =>
    let tt := fkTable s
    if tt = "" then .error ("Invalid FK definition: " ++ s)
    else .ok (.belongsTo tok tt (getColumns cfg tt) (tt ++ ".id") (ct ++ "." ++ field))
  | .fobj _ _ _ => .error "unreachable"

/-- First belongs-to candidate in field declaration order. -/
def belongsToScan (cfg : MockliteConfig) (ct tok : String) :
    List (String × FieldDef) → Option (Except String RelAug)
  | [] => none
  | (f, d) :: rest =>
    if btMatch tok f d then some (btResult cfg ct tok f d)
    else belongsToScan cfg ct tok rest

/-- The has-many match test (src/core/server.ts lines 373-377): a string
`fk:` field of the token's table pointing back at the current table. -/
def hmMatch (ct : String) (d : FieldDef) : Bool :=
  match d with
  | .fstr s => strStartsWith s "fk:" && fkTable s == ct
  | .fobj _ _ _ => false

/-- First has-many candidate in field declaration order of the token's
table (src/core/server.ts lines 369-401): embeds an array under the token
key, joined on `tok.field = currentTable.id`. -/
def hasManyScan (cfg : MockliteConfig) (ct tok : String) :
    List (String × FieldDef) → Option RelAug
  | [] => none
  | (f, d) :: rest =>
    if hmMatch ct d then
      some (.hasMany tok tok (getColumns cfg tok) (tok ++ "." ++ f) (ct ++ ".id"))
    else hasManyScan cfg ct tok rest

/-- `MockServer.applyRelation` (src/core/server.ts lines 313-404):
belongs-to candidates of the current table first, then has-many candidates
of the table named by the token, else the query is returned unmodified. -/
def applyRelation (cfg : MockliteConfig) (ct tok : String) : Except String RelAug :=
  match
    (match findTable cfg ct with
     | some t => belongsToScan cfg ct tok t.fields
     | none => none) with
  | some r => r
  | none =>
    match findTable cfg tok with
    | some t =>
      match hasManyScan cfg ct tok t.fields with
      | some r => .ok r
      | none => .ok .noop
    | none => .ok .noop

/- ------------------------------------------------------------------
src/core/server.ts : transformResult (boolean presentation mapping)
------------------------------------------------------------------ -/

/-- A JSON response value: either a scalar, or an embedded related object
or array produced by a relation join (whose members are scalar-valued
rows, as the join selects declared columns only). -/
inductive JVal where
  | base (v : Value)
  | obj (fields : List (String × Value))
  | arr (rows : List (List (String × Value)))
deriving DecidableEq, Repr

/-- A stored database row. -/
abbrev Row := List (String × Value)

/-- A JSON response row. -/
abbrev JRow := List (String × JVal)

/-- View a stored row as a response row. -/
def rowToJ (r : Row) : JRow := r.map (fun kv => (kv.1, JVal.base kv.2))

/-- Cached instances, so that deeply nested store/response types stay
within the instance-search limits. -/
instance decEqRowInst : DecidableEq Row := inferInstance

instance decEqJRowInst : DecidableEq JRow := inferInstance

/-- The boolean-field test of `transformResult` (src/core/server.ts lines
98-107): a string definition containing "boolean", or an object definition
whose truthy `type` contains "boolean". -/
def isBooleanDef (d : FieldDef) : Bool :=
  match d with
  | .fstr s => strContains s "boolean"
  | .fobj ty _ _ => ty ≠ "" && strContains ty "boolean"

/-- The boolean-declared field names of a table (empty for an unknown
table, making the transform a no-op, as in the source). -/
def booleanFields (cfg : MockliteConfig) (tableName : String) : List String :=
  match findTable cfg tableName with
  | some t => (t.fields.filter (fun kv => isBooleanDef kv.2)).map Prod.fst
  | none => []

/-- `Number(x)` on a response value (`none` is NaN): objects coerce to NaN,
the empty array to 0, a non-empty array of objects to NaN. -/
def jsNumberJ : JVal → Option Int
  | .base (.vInt n) => some n
  | .base (.vStr s) => strToIntOpt s
  | .base .vNull => some 0
  | .base (.vBool b) => some (if b then 1 else 0)
  | .obj _ => none
  | .arr [] => some 0
  | .arr (_ :: _) => none

/-- `transformItem` inside `transformResult` (src/core/server.ts lines
109-126): replace each top-level entry whose key is a boolean-declared
field of THIS table by `Number(value) === 1`; every other entry — embedded
objects and arrays included — is kept verbatim.  The early returns of the
source (unknown table, no boolean fields) coincide with mapping over an
empty `booleanFields` list. -/
def transformRow (cfg : MockliteConfig) (tableName : String) (item : JRow) : JRow :=
  let bf := booleanFields cfg tableName
  if bf.isEmpty then item
  else item.map (fun kv =>
    (kv.1, if bf.contains kv.1 then JVal.base (.vBool (jsNumberJ kv.2 == some 1)) else kv.2))

/-- `transformResult` on a list response. -/
def transformRows (cfg : MockliteConfig) (tableName : String) (data : List JRow) :
    List JRow :=
  data.map (transformRow cfg tableName)

/- ------------------------------------------------------------------
The store model and src/core/seeder.ts
------------------------------------------------------------------ -/

/-- The SQLite store: table name to committed rows, in creation order. -/
abbrev DB := List (String × List Row)

instance decEqDBInst : DecidableEq DB := inferInstance

/-- One iteration of `Seeder.clear`: `DELETE FROM t` empties an existing
table; on a missing table the statement throws and the catch block ignores
it, leaving the store unchanged. -/
def clearStep (d : DB) (t : TableSchema) : DB :=
  match lookupKey t.table d with
  | some _ => setKey t.table [] d
  | none => d

/-- `Seeder.clear` (src/core/seeder.ts lines 17-25): delete all rows from
every configured table in declaration order; a failing DELETE (table does
not exist) is caught and ignored, so the operation is total. -/
def clearDb (cfg : MockliteConfig) (db : DB) : DB :=
  cfg.schema.foldl clearStep db

/-- `Seeder.resolveValue` (src/core/seeder.ts lines 112-130).  `oracle`
models `executeFakerPath` (path and options to generated value); `rnd`
models the random index drawn by `faker.helpers.arrayElement`, which
throws on an empty dataset. -/
def resolveValue (oracle : String → Option String → Value) (rnd : Nat)
    (d : FieldDef) : Except String Value :=
  match d with
  | .fstr s =>
    if strStartsWith s "faker." then .ok (oracle s none)
    else .ok (.vStr s)
  | .fobj ty opts vals =>
    if ty = "enum" ∧ vals.isSome then
      let vs := vals.getD []
      match vs.get? (rnd % vs.length) with
      | some v => .ok v
      | none => .error "Cannot get value from empty dataset."
    else if strStartsWith ty "faker." then .ok (oracle ty opts)
    else .ok .vNull

/-- The boolean-to-integer storage coercion of `Seeder.generateRow`
(src/core/seeder.ts lines 95-97). -/
def storeCoerce (v : Value) : Value :=
  match v with
  | .vBool b => .vInt (if b then 1 else 0)
  | _ => v

/-- One field of `Seeder.generateRow` (src/core/seeder.ts lines 66-100):
`pk` fields are skipped, `fk:` fields read one random committed row of the
target table (null when it has none; a malformed target throws), and every
other definition resolves through `resolveValue` with booleans coerced to
1/0.  `rnd` models the random choice (`ORDER BY RANDOM() LIMIT 1`). -/
def genField (db : DB) (oracle : String → Option String → Value) (rnd : Nat)
    (key : String) (d : FieldDef) : Except String (Option (String × Value)) :=
  if d = .fstr "pk" then .ok none
  else
    match d with
    | .fstr s =>
      if strStartsWith s "fk:" then
        if fkTail s = "" then .error ("Invalid FK definition: " ++ s)
        else if fkTable s = "" ∨ fkCol s = "" then
          .error ("Invalid FK definition: " ++ s)
        else
          match lookupKey (fkTable s) db with
          | none => .error ("no such table: " ++ fkTable s)
          | some rows =>
            match rows.get? (rnd % rows.length) with
            | none => .ok (some (key, .vNull))
            | some r => .ok (some (key, (lookupKey (fkCol s) r).getD .vNull))
      else
        match resolveValue oracle rnd (.fstr s) with
        | .error e => .error e
        | .ok v => .ok (some (key, storeCoerce v))
    | .fobj _ _ _ =>
      match resolveValue oracle rnd d with
      | .error e => .error e
      | .ok v => .ok (some (key, storeCoerce v))

/-- `Seeder.generateRow` over the field list, with a per-field random
source. -/
def genFields (db : DB) (oracle : String → Option String → Value)
    (rnd : String → Nat) : List (String × FieldDef) → Except String Row
  | [] => .ok []
  | (key, d) :: rest =>
    match genField db oracle (rnd key) key d with
    | .error e => .error e
    | .ok v? =>
      match genFields db oracle rnd rest with
      | .error e => .error e
      | .ok r =>
        match v? with
        | none => .ok r
        | some kv => .ok (kv :: r)

/-- The row loop of `Seeder.run` (src/core/seeder.ts lines 43-46): generate
`n` rows against the same committed state (the batch is inserted only
afterwards), with a per-row random source. -/
def genRows (db : DB) (oracle : String → Option String → Value)
    (rnds : Nat → String → Nat) (fields : List (String × FieldDef)) :
    Nat → Except String (List Row)
  | 0 => .ok []
  | n + 1 =>
    match genFields db oracle (rnds n) fields with
    | .error e => .error e
    | .ok r =>
      match genRows db oracle rnds fields n with
      | .error e => .error e
      | .ok rest => .ok (r :: rest)

/-- The declared primary-key field of a table, if any. -/
def pkFieldName (t : TableSchema) : Option String :=
  (t.fields.find? (fun kv => kv.2 == FieldDef.fstr "pk")).map Prod.fst

/-- One step of the auto-increment maximum: take a row's integer value of
the pk column into the running maximum. -/
def pkStep (pkName : String) (m : Int) (r : Row) : Int :=
  match lookupKey pkName r with
  | some (Value.vInt n) => max m n
  | _ => m

/-- Largest integer value of the given column over the committed rows
(0 when there is none) — the basis of SQLite auto-increment assignment. -/
def maxPk (pkName : String) (rows : List Row) : Int :=
  rows.foldl (pkStep pkName) 0

/-- SQLite-side primary-key assignment for a batch insert: each new row
receives the next auto-increment value of the table's pk column. -/
def assignPks (pkName : Option String) (startId : Int) (newRows : List Row) :
    List Row :=
  match pkName with
  | none => newRows
  | some pk => newRows.enum.map (fun ir => (pk, Value.vInt (startId + ir.1)) :: ir.2)

/-- One table of `Seeder.run` (src/core/seeder.ts lines 36-51): a zero or
missing seed is skipped; otherwise the generated batch is inserted into the
committed state with primary keys assigned by the store. -/
def runTable (db : DB) (oracle : String → Option String → Value)
    (rnds : Nat → String → Nat) (t : TableSchema) : Except String DB :=
  let count := t.seed.getD 0
  if count = 0 then .ok db
  else
    match genRows db oracle rnds t.fields count with
    | .error e => .error e
    | .ok rows =>
      match lookupKey t.table db with
      | none => .error ("no such table: " ++ t.table)
      | some existing =>
        .ok (setKey t.table
          (existing ++
            assignPks (pkFieldName t) (maxPk ((pkFieldName t).getD "") existing + 1) rows)
          db)

/-- `Seeder.run` (src/core/seeder.ts lines 33-54): tables in declaration
order, each batch committed before the next table generates. -/
def seederRun (cfg : MockliteConfig) (oracle : String → Option String → Value)
    (rnds : String → Nat → String → Nat) (db : DB) : Except String DB :=
  cfg.schema.foldlM (fun d t => runTable d oracle (rnds t.table) t) db

/- ------------------------------------------------------------------
src/core/server.ts : list plan, create and detail handlers
------------------------------------------------------------------ -/

/-- The parsed query string of a list request,
`const { include, page, limit, ...filters } = c.req.query()`. -/
structure ListParams where
  includeTok : Option String
  page : Option String
  limit : Option String
  filters : List (String × String)

/-- The query plan the list handler builds before execution: the count
query's predicates, the data query's predicates, the relation augmentation
applied to the data query only, and the pagination numbers. -/
structure ListPlan where
  countFilters : List Filter
  dataFilters : List Filter
  relation : Except String RelAug
  page : Int
  limit : Int
  offset : Int

/-- The list handler up to query execution (src/core/server.ts lines
144-199): numeric coercion with `|| default` fallback, the shared filter
loop, the truthiness-guarded relation augmentation, and
`offset = (page-1)*limit`. -/
def buildListPlan (cfg : MockliteConfig) (t : TableSchema) (q : ListParams) :
    ListPlan :=
  let pageNum := jsOr (jsNumber q.page) 1
  let limitNum := jsOr (jsNumber q.limit) 10
  let qs := buildQueries t q.filters
  { countFilters := qs.1
    dataFilters := qs.2
    relation :=
      match q.includeTok with
      | some s => if s ≠ "" then applyRelation cfg t.table s else .ok .noop
      | none => .ok .noop
    page := pageNum
    limit := limitNum
    offset := (pageNum - 1) * limitNum }

/-- The `meta` object of the list response (src/core/server.ts lines
204-209), given the total the count query reported. -/
structure Meta where
  total : Int
  page : Int
  limit : Int
  totalPages : Int
deriving DecidableEq, Repr

/-- `meta` as computed by the handler: `totalPages = Math.ceil(total/limit)`. -/
def listMeta (p : ListPlan) (total : Nat) : Meta :=
  { total := total, page := p.page, limit := p.limit,
    totalPages := jsCeilDiv total p.limit }

/-- SQLite comparison of an INTEGER-affinity column against a text operand,
restricted to canonical integer literals: the text is converted to the
integer it spells, a non-numeric text never equals an integer. -/
def sqliteTextToInt (s : String) : Option Int :=
  match s.data with
  | [] => none
  | '-' :: rest => (parseDigitsList rest none).map (fun n => -(n : Int))
  | l => (parseDigitsList l none).map Int.ofNat

/-- `.where("id", "=", id)` of the detail route, `id` being the raw URL
parameter string. -/
def rowIdMatches (r : Row) (idStr : String) : Bool :=
  match lookupKey "id" r, sqliteTextToInt idStr with
  | some (.vInt n), some m => n == m
  | _, _ => false

/-- Values better-sqlite3 can bind; a boolean (or structured) body value
makes the insert throw and the handler answer 400. -/
def storable : Value → Bool
  | .vBool _ => false
  | _ => true

/-- The POST handler (src/core/server.ts lines 231-252): insert the body,
then answer with `transformResult(table, { id: insertId.toString(),
...body })`.  The store assigns the auto-increment primary key; the
response's `id` key is the literal string "id" and its value the DECIMAL
STRING of the insert id.  (The embedding places the id entry first; this
matches the JS object literal whenever the body carries no "id" key, which
every theorem below assumes.) -/
def createHandler (cfg : MockliteConfig) (db : DB) (t : TableSchema) (body : Row) :
    Except String (DB × JRow) :=
  if body.all (fun kv => storable kv.2) then
    match lookupKey t.table db with
    | none => .error ("no such table: " ++ t.table)
    | some rows =>
      let newId := maxPk ((pkFieldName t).getD "") rows + 1
      let stored :=
        match pkFieldName t with
        | some pkName => (pkName, Value.vInt newId) :: body
        | none => body
      let resp : JRow := rowToJ (("id", Value.vStr (toString newId)) :: body)
      .ok (setKey t.table (rows ++ [stored]) db, transformRow cfg t.table resp)
  else .error "SQLite3 can only bind numbers, strings, bigints, buffers, and null"

/-- The detail GET handler without relation expansion (src/core/server.ts
lines 213-229): first row whose id column equals the URL parameter,
presented through `transformResult`; `none` is the 404 answer. -/
def detailHandler (cfg : MockliteConfig) (db : DB) (t : TableSchema)
    (idStr : String) : Option JRow :=
  match lookupKey t.table db with
  | none => none
  | some rows =>
    match rows.find? (fun r => rowIdMatches r idStr) with
    | none => none
    | some r => some (transformRow cfg t.table (rowToJ r))

/- ------------------------------------------------------------------
Concrete schemas used by witnesses and counterexamples
------------------------------------------------------------------ -/

/-- The `users` table of the shipped default configuration, in string-field
form. -/
def usersTable : TableSchema :=
  ⟨"users", some 5,
    [("id", .fstr "pk"), ("name", .fstr "faker.person.fullName"),
     ("isActive", .fstr "faker.datatype.boolean")]⟩

/-- The `posts` table of the shipped default configuration. -/
def postsTable : TableSchema :=
  ⟨"posts", some 10,
    [("id", .fstr "pk"), ("title", .fstr "faker.lorem.sentence"),
     ("authorId", .fstr "fk:users.id")]⟩

/-- A two-table demo configuration. -/
def demoConfig : MockliteConfig := ⟨[usersTable, postsTable]⟩

/-- A target table whose declared key column is `uuid`, not `id`. -/
def usersUuidTable : TableSchema :=
  ⟨"users", some 0, [("uuid", .fstr "pk"), ("name", .fstr "faker.person.fullName")]⟩

/-- A source table whose foreign key targets `users.uuid`. -/
def postsUuidTable : TableSchema :=
  ⟨"posts", some 0, [("id", .fstr "pk"), ("authorId", .fstr "fk:users.uuid")]⟩

/-- Configuration with a non-`id` declared target column. -/
def uuidConfig : MockliteConfig := ⟨[usersUuidTable, postsUuidTable]⟩

/-- A table with a foreign-key field whose name contains "Id" in a
non-trailing position. -/
def cardsTable : TableSchema :=
  ⟨"cards", some 0, [("id", .fstr "pk"), ("Identity", .fstr "fk:people.id")]⟩

/-- The target table for `cardsTable`. -/
def peopleTable : TableSchema := ⟨"people", some 0, [("id", .fstr "pk")]⟩

/-- Configuration exercising the "Id"-stripping heuristic. -/
def idConfig : MockliteConfig := ⟨[peopleTable, cardsTable]⟩

/- ------------------------------------------------------------------
Association-list lemmas
------------------------------------------------------------------ -/

theorem lookupKey_setKey_self {α : Type} (k : String) (v : α) (l : List (String × α)) :
    lookupKey k (setKey k v l) = (lookupKey k l).map (fun _ => v) := by
  induction l with
  | nil => rfl
  | cons hd tl ih =>
    by_cases h : hd.1 = k
    · simp [setKey, lookupKey, h]
    · simp [setKey, lookupKey, h, ih]

theorem lookupKey_setKey_ne {α : Type} {k k' : String} (v : α) (l : List (String × α))
    (h : k' ≠ k) : lookupKey k (setKey k' v l) = lookupKey k l := by
  induction l with
  | nil => rfl
  | cons hd tl ih =>
    by_cases h1 : hd.1 = k'
    · simp [setKey, lookupKey, h1, h, ih]
    · simp [setKey, lookupKey, h1, ih]

theorem setKey_id {α : Type} {k : String} {v : α} {l : List (String × α)}
    (h : lookupKey k l = some v) : setKey k v l = l := by
  induction l with
  | nil => simp [lookupKey] at h
  | cons hd tl ih =>
    obtain ⟨a, b⟩ := hd
    by_cases h1 : a = k
    · subst h1
      simp [lookupKey] at h
      simp [setKey, h]
    · simp [lookupKey, h1] at h
      simp [setKey, h1, ih h]

theorem lookupKey_eq_none {α : Type} {k : String} {l : List (String × α)}
    (h : ∀ kv ∈ l, kv.1 ≠ k) : lookupKey k l = none := by
  induction l with
  | nil => rfl
  | cons hd tl ih =>
    have hhd := h hd (by simp)
    simp [lookupKey, hhd]
    exact ih (fun kv hm => h kv (by simp [hm]))

/- ------------------------------------------------------------------
C9 : clear is an idempotent reset
------------------------------------------------------------------ -/

/-- A table is in cleared state: empty, or not created at all. -/
def clearedAt (d : DB) (name : String) : Prop :=
  lookupKey name d = some [] ∨ lookupKey name d = none

theorem clearStep_lookup_self (d : DB) (t : TableSchema) :
    lookupKey t.table (clearStep d t) =
      (lookupKey t.table d).map (fun _ => ([] : List Row)) := by
  unfold clearStep
  cases h : lookupKey t.table d with
  | none => simp [h]
  | some rows => simp [h, lookupKey_setKey_self]

theorem clearStep_lookup_ne (d : DB) (t : TableSchema) (name : String)
    (h : t.table ≠ name) : lookupKey name (clearStep d t) = lookupKey name d := by
  unfold clearStep
  cases h1 : lookupKey t.table d with
  | none => rfl
  | some rows => exact lookupKey_setKey_ne _ _ h

theorem clearStep_keeps (d : DB) (t : TableSchema) (name : String)
    (h : clearedAt d name) : clearedAt (clearStep d t) name := by
  by_cases he : t.table = name
  · subst he
    rcases h with h | h <;> unfold clearedAt <;>
      rw [clearStep_lookup_self, h] <;> simp
  · unfold clearedAt
    rw [clearStep_lookup_ne _ _ _ he]
    exact h

theorem foldClear_keeps (l : List TableSchema) (d : DB) (name : String)
    (h : clearedAt d name) : clearedAt (l.foldl clearStep d) name := by
  induction l generalizing d with
  | nil => exact h
  | cons hd tl ih => exact ih (clearStep d hd) (clearStep_keeps d hd name h)

theorem foldClear_cleared (l : List TableSchema) (d : DB) (t : TableSchema)
    (ht : t ∈ l) : clearedAt (l.foldl clearStep d) t.table := by
  induction l generalizing d with
  | nil => cases ht
  | cons hd tl ih =>
    simp only [List.foldl_cons]
    rcases List.mem_cons.mp ht with h | h
    · subst h
      apply foldClear_keeps
      unfold clearedAt
      rw [clearStep_lookup_self]
      cases lookupKey t.table d <;> simp
    · exact ih (clearStep d hd) h

theorem clearStep_fix (d : DB) (t : TableSchema) (h : clearedAt d t.table) :
    clearStep d t = d := by
  unfold clearStep
  rcases h with h | h
  · rw [h]
    exact setKey_id h
  · rw [h]

theorem foldClear_fix (l : List TableSchema) (d : DB)
    (h : ∀ t ∈ l, clearedAt d t.table) : l.foldl clearStep d = d := by
  induction l with
  | nil => rfl
  | cons hd tl ih =>
    have hfix := clearStep_fix d hd (h hd (by simp))
    simp only [List.foldl_cons, hfix]
    exact ih (fun t ht => h t (by simp [ht]))

/-- C9: for every configuration, `clear` twice equals `clear` once (no
error can arise, the implementation swallows per-table delete failures by
construction), and after a `clear` every configured table that exists in
the store has zero rows; deletion proceeds over all configured tables in
declaration order, tolerating missing tables — an idempotent reset. -/
theorem c9_clear_idempotent_reset (cfg : MockliteConfig) (db : DB) :
    clearDb cfg (clearDb cfg db) = clearDb cfg db ∧
    ∀ t ∈ cfg.schema, ∀ rows,
      lookupKey t.table (clearDb cfg db) = some rows → rows = [] := by
  constructor
  · exact foldClear_fix cfg.schema (clearDb cfg db)
      (fun t ht => foldClear_cleared cfg.schema db t ht)
  · intro t ht rows hr
    unfold clearDb at hr
    rcases foldClear_cleared cfg.schema db t ht with h | h
    · rw [hr] at h
      exact Option.some.inj h
    · rw [hr] at h
      cases h

/-- C9 witness: a concrete configuration and store. -/
theorem c9_witness :
    clearDb demoConfig (clearDb demoConfig [("users", [[("id", Value.vInt 1)]])]) =
      clearDb demoConfig [("users", [[("id", Value.vInt 1)]])] ∧
    lookupKey "users" (clearDb demoConfig [("users", [[("id", Value.vInt 1)]])]) =
      some [] := by
  have h := c9_clear_idempotent_reset demoConfig [("users", [[("id", Value.vInt 1)]])]
  refine ⟨h.1, ?_⟩
  exact (by decide : lookupKey "users"
    (clearDb demoConfig [("users", [[("id", Value.vInt 1)]])]) = some [])

/- ------------------------------------------------------------------
C10 : boolean presentation only at the top level
------------------------------------------------------------------ -/

theorem strListContains_iff (l : List String) (a : String) :
    l.contains a = true ↔ a ∈ l := by
  induction l with
  | nil => simp
  | cons hd tl ih => simp [List.contains_cons, ih]

theorem transformRow_lookup (cfg : MockliteConfig) (tn : String) (item : JRow)
    (k : String) :
    lookupKey k (transformRow cfg tn item) =
      (lookupKey k item).map (fun w =>
        if (booleanFields cfg tn).contains k then
          JVal.base (.vBool (jsNumberJ w == some 1))
        else w) := by
  unfold transformRow
  by_cases hbf : (booleanFields cfg tn).isEmpty = true
  · have hb : booleanFields cfg tn = [] := List.isEmpty_iff.mp hbf
    rw [if_pos hbf, hb]
    cases lookupKey k item <;> simp [List.contains]
  · rw [if_neg hbf]
    induction item with
    | nil => rfl
    | cons hd tl ih =>
      obtain ⟨a, b⟩ := hd
      simp only [List.map_cons, lookupKey]
      by_cases ha : a = k
      · subst ha
        simp
      · simp only [if_neg ha]
        exact ih

/-- C10: on any response row of a table, `transformResult` converts exactly
the top-level entries whose key is a boolean-declared field of that table;
an entry under any other key — in particular an embedded related object or
array produced by an `include` token — is returned verbatim, so boolean
fields inside embedded related objects stay stored integers 1/0 and are
never presented as true/false. -/
theorem c10_boolean_mapping_top_level_only (cfg : MockliteConfig) (tn : String)
    (item : JRow) (tok : String) (v : JVal) (h : lookupKey tok item = some v) :
    (tok ∉ booleanFields cfg tn →
      lookupKey tok (transformRow cfg tn item) = some v) ∧
    (tok ∈ booleanFields cfg tn →
      lookupKey tok (transformRow cfg tn item) =
        some (JVal.base (.vBool (jsNumberJ v == some 1)))) := by
  refine ⟨fun hn => ?_, fun hmem => ?_⟩
  · have hc : (booleanFields cfg tn).contains tok = false := by
      rw [← Bool.not_eq_true, strListContains_iff]
      exact hn
    rw [transformRow_lookup, h]
    simp only [Option.map_some']
    rw [if_neg (by rw [hc]; exact Bool.false_ne_true)]
  · have hc := (strListContains_iff (booleanFields cfg tn) tok).mpr hmem
    rw [transformRow_lookup, h]
    simp only [Option.map_some']
    rw [if_pos hc]

/-- C10 witness: a users row with an embedded object under key "author";
the row's own boolean field is converted, the embedded object — with its
1/0 boolean inside — is returned verbatim. -/
theorem c10_witness :
    lookupKey "author" (transformRow demoConfig "users"
        [("id", JVal.base (Value.vInt 1)), ("isActive", JVal.base (Value.vInt 1)),
         ("author", JVal.obj [("flag", Value.vInt 1)])]) =
      some (JVal.obj [("flag", Value.vInt 1)]) :=
  (c10_boolean_mapping_top_level_only demoConfig "users"
      [("id", JVal.base (Value.vInt 1)), ("isActive", JVal.base (Value.vInt 1)),
       ("author", JVal.obj [("flag", Value.vInt 1)])]
      "author" (JVal.obj [("flag", Value.vInt 1)]) (by decide)).1 (by decide)

/- ------------------------------------------------------------------
C1 : filter predicate choice of the query augmenter
------------------------------------------------------------------ -/

/-- C1 counterexample: `authorId` is declared `fk:users.id`, whose resolved
storage type is integer (not text), yet the augmenter applies a substring
LIKE predicate to it rather than the equality the claim requires for
non-text-storage fields. -/
theorem c1_counterexample :
    filterFor postsTable "authorId" "1" =
      some ⟨"authorId", FilterOp.like, "%1%"⟩ ∧
    (parseField "authorId" (FieldDef.fstr "fk:users.id")).toOption.map Column.colType =
      some ColType.integer ∧
    FilterOp.like ≠ FilterOp.eq := by
  decide

/-- C1 amended: filtering on the literal key `id` is always equality; for
any other declared key, a string definition containing none of "boolean",
"number", "int" gets the substring predicate `LIKE '%value%'` and any
other string definition gets equality (so `fk:` and `pk` string fields get
LIKE although their storage type is integer); an object-form definition
(e.g. an enum, stored as text) gets equality; undeclared keys produce no
predicate. -/
theorem c1_filter_predicate_choice (t : TableSchema) (k v : String) :
    (k = "id" → filterFor t k v = some ⟨k, FilterOp.eq, v⟩) ∧
    (k ≠ "id" → ∀ s, lookupKey k t.fields = some (FieldDef.fstr s) → s ≠ "" →
      filterFor t k v =
        some (if !strContains s "boolean" && !strContains s "number" && !strContains s "int"
          then ⟨k, FilterOp.like, "%" ++ v ++ "%"⟩ else ⟨k, FilterOp.eq, v⟩)) ∧
    (k ≠ "id" → ∀ ty o vs, lookupKey k t.fields = some (FieldDef.fobj ty o vs) →
      filterFor t k v = some ⟨k, FilterOp.eq, v⟩) ∧
    (k ≠ "id" → lookupKey k t.fields = none → filterFor t k v = none) := by
  refine ⟨?_, ?_, ?_, ?_⟩
  · intro hk
    simp [filterFor, hk]
  · intro hk s hs hns
    simp [filterFor, hs, jsTruthyDef, hns, hk]
  · intro hk ty o vs hs
    simp [filterFor, hs, jsTruthyDef, hk]
  · intro hk hs
    simp [filterFor, hs, jsTruthyDef, hk]

/-- C1 witness: a plain text field gets the substring predicate. -/
theorem c1_witness :
    filterFor postsTable "title" "abc" = some ⟨"title", FilterOp.like, "%abc%"⟩ := by
  have h := (c1_filter_predicate_choice postsTable "title" "abc").2.1
    (by decide) "faker.lorem.sentence" (by decide) (by decide)
  exact h.trans (by decide)

/- ------------------------------------------------------------------
C5 : storage type mapping of the schema compiler
------------------------------------------------------------------ -/

/-- C5 counterexample: an object-form generated field whose generator path
contains "number" compiles to a TEXT column, not the integer column the
claim requires for generated fields "whether declared in string form or
object form". -/
theorem c5_counterexample :
    parseField "age" (FieldDef.fobj "faker.number.int" none none) =
      .ok ⟨"age", ColType.text, false, false, none, false⟩ ∧
    strContains "faker.number.int" "number" = true ∧
    ColType.text ≠ ColType.integer := by
  decide

/-- C5 amended: the compiled column type is: `"pk"` — auto-incrementing
unique integer; `"fk:"` string — integer referencing the parsed target
with cascading delete; a string definition containing "number" or "int" —
integer; otherwise containing "boolean" — integer; any other string —
text; and EVERY object-form definition — text, the number/int/boolean
heuristic applying to string-form definitions only (so enum objects get
text as claimed, but object-form generated fields get text as well). -/
theorem c5_storage_type_mapping (name : String) :
    (parseField name (FieldDef.fstr "pk") =
      .ok ⟨name, ColType.integer, true, true, none, false⟩) ∧
    (∀ s, strStartsWith s "fk:" = true → fkTail s ≠ "" →
      parseField name (FieldDef.fstr s) =
        .ok ⟨name, ColType.integer, false, false, some (fkTable s, fkColOrUndef s), true⟩) ∧
    (∀ s, s ≠ "pk" → strStartsWith s "fk:" = false →
      (strContains s "number" || strContains s "int") = true →
      parseField name (FieldDef.fstr s) =
        .ok ⟨name, ColType.integer, false, false, none, false⟩) ∧
    (∀ s, s ≠ "pk" → strStartsWith s "fk:" = false →
      (strContains s "number" || strContains s "int") = false →
      strContains s "boolean" = true →
      parseField name (FieldDef.fstr s) =
        .ok ⟨name, ColType.integer, false, false, none, false⟩) ∧
    (∀ s, s ≠ "pk" → strStartsWith s "fk:" = false →
      (strContains s "number" || strContains s "int") = false →
      strContains s "boolean" = false →
      parseField name (FieldDef.fstr s) =
        .ok ⟨name, ColType.text, false, false, none, false⟩) ∧
    (∀ ty o vs, parseField name (FieldDef.fobj ty o vs) =
      .ok ⟨name, ColType.text, false, false, none, false⟩) := by
  refine ⟨rfl, ?_, ?_, ?_, ?_, fun ty o vs => rfl⟩
  · intro s hfk htail
    have hpk : s ≠ "pk" := by
      intro he
      subst he
      exact absurd hfk (by decide)
    simp [parseField, hpk, hfk, htail]
  · intro s hpk hfk hnum
    simp [parseField, hpk, hfk, hnum]
  · intro s hpk hfk hnum hbool
    simp [parseField, hpk, hfk, hnum, hbool]
  · intro s hpk hfk hnum hbool
    simp [parseField, hpk, hfk, hnum, hbool]

/-- C5 witness: concrete fields of each shape. -/
theorem c5_witness :
    parseField "authorId" (FieldDef.fstr "fk:users.id") =
      .ok ⟨"authorId", ColType.integer, false, false, some ("users", "id"), true⟩ ∧
    parseField "age" (FieldDef.fstr "faker.number.int") =
      .ok ⟨"age", ColType.integer, false, false, none, false⟩ ∧
    parseField "name" (FieldDef.fstr "faker.person.fullName") =
      .ok ⟨"name", ColType.text, false, false, none, false⟩ := by
  have h := c5_storage_type_mapping "authorId"
  have h1 := h.2.1 "fk:users.id" (by decide) (by decide)
  have h2 := (c5_storage_type_mapping "age").2.2.1 "faker.number.int"
    (by decide) (by decide) (by decide)
  have h3 := (c5_storage_type_mapping "name").2.2.2.2.1 "faker.person.fullName"
    (by decide) (by decide) (by decide) (by decide)
  exact ⟨h1.trans (by decide), h2, h3⟩

/- ------------------------------------------------------------------
C6 : what the field interpreter actually rejects
------------------------------------------------------------------ -/

/-- Is a modelled operation in the thrown state? -/
def isErrorE {ε α : Type} : Except ε α → Bool
  | .error _ => true
  | .ok _ => false

/-- C6 counterexample: a `"fk:"` string without a `.`-separated pair
compiles without error (referencing `users.undefined`), and an object
definition with an unrecognized type neither fails compilation (text
column) nor generation (it silently resolves to null) — the claim requires
a fatal configuration error in both situations. -/
theorem c6_counterexample :
    parseField "uid" (FieldDef.fstr "fk:users") =
      .ok ⟨"uid", ColType.integer, false, false, some ("users", "undefined"), true⟩ ∧
    parseField "x" (FieldDef.fobj "custom" none none) =
      .ok ⟨"x", ColType.text, false, false, none, false⟩ ∧
    resolveValue (fun _ _ => Value.vStr "generated") 0 (FieldDef.fobj "custom" none none) =
      .ok Value.vNull := by
  decide

/-- C6 amended: schema compilation rejects a `"fk:"` string exactly when
NOTHING follows the colon; a `"fk:"` string missing the table or column
part still compiles and only errors later, when the seeder generates a row
for it; an object definition whose type is neither enum-with-values nor a
faker path never raises any error — it compiles to a text column and
generates null. -/
theorem c6_error_conditions (name : String) :
    (∀ s, strStartsWith s "fk:" = true →
      (isErrorE (parseField name (FieldDef.fstr s)) = true ↔ fkTail s = "")) ∧
    (∀ ty o vs, isErrorE (parseField name (FieldDef.fobj ty o vs)) = false) ∧
    (∀ oracle rnd ty o vs, ¬(ty = "enum" ∧ vs.isSome = true) →
      strStartsWith ty "faker." = false →
      resolveValue oracle rnd (FieldDef.fobj ty o vs) = .ok Value.vNull) ∧
    (∀ (db : DB) oracle rnd key s, strStartsWith s "fk:" = true → fkTail s ≠ "" →
      (fkTable s = "" ∨ fkCol s = "") →
      isErrorE (genField db oracle rnd key (FieldDef.fstr s)) = true) := by
  refine ⟨?_, fun ty o vs => rfl, ?_, ?_⟩
  · intro s hfk
    have hpk : s ≠ "pk" := by
      intro he
      subst he
      exact absurd hfk (by decide)
    by_cases htail : fkTail s = ""
    · simp [parseField, hpk, hfk, htail, isErrorE]
    · simp [parseField, hpk, hfk, htail, isErrorE]
  · intro oracle rnd ty o vs henum hfaker
    have h1 : ¬(ty = "enum" ∧ vs.isSome = true) := henum
    simp only [resolveValue]
    rw [if_neg h1]
    simp [hfaker]
  · intro db oracle rnd key s hfk htail hbad
    have hpk : FieldDef.fstr s ≠ FieldDef.fstr "pk" := by
      intro he
      rw [FieldDef.fstr.injEq] at he
      subst he
      exact absurd hfk (by decide)
    simp [genField, hpk, hfk, htail, hbad, isErrorE]

/-- C6 witness: the concrete malformed inputs. -/
theorem c6_amended_witness :
    isErrorE (parseField "uid" (FieldDef.fstr "fk:")) = true ∧
    isErrorE (parseField "uid" (FieldDef.fstr "fk:users")) = false ∧
    isErrorE (genField [] (fun _ _ => Value.vNull) 0 "uid" (FieldDef.fstr "fk:users")) =
      true := by
  have h := c6_error_conditions "uid"
  refine ⟨(h.1 "fk:" (by decide)).mpr (by decide), ?_, ?_⟩
  · have hne := (h.1 "fk:users" (by decide)).not.mpr (by decide)
    simpa using hne
  · exact h.2.2.2 [] (fun _ _ => Value.vNull) 0 "uid" "fk:users"
      (by decide) (by decide) (by decide)

/- ------------------------------------------------------------------
C3 : pagination of the list endpoint
------------------------------------------------------------------ -/

/-- C3 counterexample: `Number(x) || default` keeps negative values, so
`page=-3` and `limit=-5` are NOT replaced by the defaults as the claim
states; the offset is then computed from the negative numbers. -/
theorem c3_counterexample :
    (buildListPlan demoConfig usersTable ⟨none, some "-3", some "-5", []⟩).page = -3 ∧
    (buildListPlan demoConfig usersTable ⟨none, some "-3", some "-5", []⟩).limit = -5 ∧
    (buildListPlan demoConfig usersTable ⟨none, some "-3", some "-5", []⟩).offset = 20 ∧
    ((-3 : Int) ≠ 1) ∧ ((-5 : Int) ≠ 10) := by
  decide

theorem buildQueries_fst_eq_snd (t : TableSchema) (params : List (String × String)) :
    (buildQueries t params).1 = (buildQueries t params).2 := by
  suffices h : ∀ (acc : List Filter × List Filter), acc.1 = acc.2 →
      (params.foldl
        (fun acc p =>
          match filterFor t p.1 p.2 with
          | some f => (acc.1 ++ [f], acc.2 ++ [f])
          | none => acc) acc).1 =
      (params.foldl
        (fun acc p =>
          match filterFor t p.1 p.2 with
          | some f => (acc.1 ++ [f], acc.2 ++ [f])
          | none => acc) acc).2 by
    exact h ([], []) rfl
  induction params with
  | nil => intro acc hacc; exact hacc
  | cons p ps ih =>
    intro acc hacc
    simp only [List.foldl_cons]
    apply ih
    cases filterFor t p.1 p.2 <;> simp [hacc]

theorem jsCeilDiv_is_ceil (a b : Int) (hb : 0 < b) :
    jsCeilDiv a b * b ≥ a ∧ (jsCeilDiv a b - 1) * b < a := by
  unfold jsCeilDiv
  rw [Int.fdiv_eq_ediv _ (le_of_lt hb)]
  have h1 : (-a) / b * b ≤ -a := Int.ediv_mul_le (-a) (ne_of_gt hb)
  have h2 : -a < ((-a) / b + 1) * b := Int.lt_ediv_add_one_mul_self (-a) hb
  constructor
  · nlinarith
  · nlinarith

/-- C3 amended: `page` defaults to 1 and `limit` to 10, the fallback firing
on parse failure (NaN) and on ZERO only — a negative parsed value is kept,
so `page=-3` or `limit=-5` are used as-is (the claim's "any non-positive
value" is wrong for negatives); the data query uses
`offset = (page-1)*limit`; the count query carries exactly the same filter
predicates as the data query; and whenever the effective limit is
positive, `meta.totalPages` is the exact ceiling of `total / limit`. -/
theorem c3_pagination_contract (cfg : MockliteConfig) (t : TableSchema)
    (q : ListParams) :
    (buildListPlan cfg t q).countFilters = (buildListPlan cfg t q).dataFilters ∧
    (buildListPlan cfg t q).offset =
      ((buildListPlan cfg t q).page - 1) * (buildListPlan cfg t q).limit ∧
    (jsNumber q.page = none ∨ jsNumber q.page = some 0 →
      (buildListPlan cfg t q).page = 1) ∧
    (∀ n : Int, n ≠ 0 → jsNumber q.page = some n → (buildListPlan cfg t q).page = n) ∧
    (jsNumber q.limit = none ∨ jsNumber q.limit = some 0 →
      (buildListPlan cfg t q).limit = 10) ∧
    (∀ n : Int, n ≠ 0 → jsNumber q.limit = some n → (buildListPlan cfg t q).limit = n) ∧
    (∀ total : Nat, 0 < (buildListPlan cfg t q).limit →
      (listMeta (buildListPlan cfg t q) total).totalPages *
          (buildListPlan cfg t q).limit ≥ total ∧
      ((listMeta (buildListPlan cfg t q) total).totalPages - 1) *
          (buildListPlan cfg t q).limit < total) := by
  refine ⟨buildQueries_fst_eq_snd t q.filters, rfl, ?_, ?_, ?_, ?_, ?_⟩
  · rintro (h | h) <;> simp [buildListPlan, h, jsOr]
  · intro n hn h
    simp [buildListPlan, h, jsOr, hn]
  · rintro (h | h) <;> simp [buildListPlan, h, jsOr]
  · intro n hn h
    simp [buildListPlan, h, jsOr, hn]
  · intro total hlim
    exact jsCeilDiv_is_ceil total (buildListPlan cfg t q).limit hlim

/-- C3 witness: defaults and the ceiling at concrete values. -/
theorem c3_witness :
    (buildListPlan demoConfig usersTable ⟨none, none, none, []⟩).page = 1 ∧
    (buildListPlan demoConfig usersTable ⟨none, none, none, []⟩).limit = 10 ∧
    (listMeta (buildListPlan demoConfig usersTable ⟨none, none, none, []⟩) 25).totalPages * 10 ≥ 25 := by
  have h := c3_pagination_contract demoConfig usersTable ⟨none, none, none, []⟩
  refine ⟨h.2.2.1 (Or.inl rfl), h.2.2.2.2.1 (Or.inl rfl), ?_⟩
  have hc := (h.2.2.2.2.2.2 25 (by decide)).1
  simpa using hc

/- ------------------------------------------------------------------
C2 and C7 : the relation resolver
------------------------------------------------------------------ -/

theorem belongsToScan_none_iff (cfg : MockliteConfig) (ct tok : String)
    (fields : List (String × FieldDef)) :
    belongsToScan cfg ct tok fields = none ↔
      ∀ x ∈ fields, btMatch tok x.1 x.2 = false := by
  induction fields with
  | nil => simp [belongsToScan]
  | cons hd tl ih =>
    obtain ⟨f, d⟩ := hd
    by_cases hm : btMatch tok f d = true
    · simp [belongsToScan, hm]
    · rw [Bool.not_eq_true] at hm
      simp [belongsToScan, hm, ih]

theorem belongsToScan_first (cfg : MockliteConfig) (ct tok : String)
    (pre : List (String × FieldDef)) (f : String) (d : FieldDef)
    (suf : List (String × FieldDef))
    (hpre : ∀ x ∈ pre, btMatch tok x.1 x.2 = false) (hm : btMatch tok f d = true) :
    belongsToScan cfg ct tok (pre ++ (f, d) :: suf) =
      some (btResult cfg ct tok f d) := by
  induction pre with
  | nil => simp [belongsToScan, hm]
  | cons hd tl ih =>
    obtain ⟨f0, d0⟩ := hd
    have h0 := hpre (f0, d0) (by simp)
    simp only [List.cons_append, belongsToScan, h0, Bool.false_eq_true, if_false]
    exact ih (fun x hx => hpre x (by simp [hx]))

theorem hasManyScan_none_iff (cfg : MockliteConfig) (ct tok : String)
    (fields : List (String × FieldDef)) :
    hasManyScan cfg ct tok fields = none ↔
      ∀ x ∈ fields, hmMatch ct x.2 = false := by
  induction fields with
  | nil => simp [hasManyScan]
  | cons hd tl ih =>
    obtain ⟨f, d⟩ := hd
    by_cases hm : hmMatch ct d = true
    · simp [hasManyScan, hm]
    · rw [Bool.not_eq_true] at hm
      simp [hasManyScan, hm, ih]

theorem hasManyScan_first (cfg : MockliteConfig) (ct tok : String)
    (pre : List (String × FieldDef)) (f : String) (d : FieldDef)
    (suf : List (String × FieldDef))
    (hpre : ∀ x ∈ pre, hmMatch ct x.2 = false) (hm : hmMatch ct d = true) :
    hasManyScan cfg ct tok (pre ++ (f, d) :: suf) =
      some (.hasMany tok tok (getColumns cfg tok) (tok ++ "." ++ f) (ct ++ ".id")) := by
  induction pre with
  | nil => simp [hasManyScan, hm]
  | cons hd tl ih =>
    obtain ⟨f0, d0⟩ := hd
    have h0 := hpre (f0, d0) (by simp)
    simp only [List.cons_append, hasManyScan, h0, Bool.false_eq_true, if_false]
    exact ih (fun x hx => hpre x (by simp [hx]))

theorem hasManyScan_shape (cfg : MockliteConfig) (ct tok : String)
    (fields : List (String × FieldDef)) (r : RelAug)
    (h : hasManyScan cfg ct tok fields = some r) :
    ∃ f, r = .hasMany tok tok (getColumns cfg tok) (tok ++ "." ++ f) (ct ++ ".id") := by
  induction fields with
  | nil => cases h
  | cons hd tl ih =>
    obtain ⟨f0, d0⟩ := hd
    by_cases hm : hmMatch ct d0 = true
    · simp only [hasManyScan, hm, if_true] at h
      exact ⟨f0, (Option.some.inj h).symm⟩
    · rw [Bool.not_eq_true] at hm
      simp only [hasManyScan, hm, Bool.false_eq_true, if_false] at h
      exact ih h

theorem belongsToScan_ok_belongsTo (cfg : MockliteConfig) (ct tok : String)
    (fields : List (String × FieldDef)) (k tt : String) (cols : List String)
    (l r : String)
    (h : belongsToScan cfg ct tok fields = some (.ok (.belongsTo k tt cols l r))) :
    k = tok ∧ tt ≠ "" ∧ cols = getColumns cfg tt ∧ l = tt ++ ".id" ∧
    ∃ f s, (f, FieldDef.fstr s) ∈ fields ∧ strStartsWith s "fk:" = true ∧
      tt = fkTable s ∧ r = ct ++ "." ++ f ∧
      (tok = fkTable s ∨ tok = jsReplaceFirst f "Id") := by
  induction fields with
  | nil => cases h
  | cons hd tl ih =>
    obtain ⟨f0, d0⟩ := hd
    by_cases hm : btMatch tok f0 d0 = true
    · simp only [belongsToScan, hm, if_true] at h
      cases d0 with
      | fobj ty o vs => simp [btMatch] at hm
      | fstr s =>
        have hms : strStartsWith s "fk:" = true ∧
            (tok = fkTable s ∨ tok = jsReplaceFirst f0 "Id") := by
          have := hm
          simp only [btMatch, Bool.and_eq_true, Bool.or_eq_true, beq_iff_eq] at this
          exact this
        by_cases htt : fkTable s = ""
        · simp [btResult, htt] at h
        · simp only [btResult, htt, if_false] at h
          have := Option.some.inj h
          rw [Except.ok.injEq] at this
          rw [RelAug.belongsTo.injEq] at this
          obtain ⟨hk, htt2, hcols, hl, hr⟩ := this
          refine ⟨hk.symm, ?_, ?_, ?_, f0, s, by simp, hms.1, htt2.symm, hr.symm, ?_⟩
          · rw [← htt2]
            exact htt
          · rw [← hcols, htt2]
          · rw [← hl, htt2]
          · exact hms.2
    · rw [Bool.not_eq_true] at hm
      simp only [belongsToScan, hm, Bool.false_eq_true, if_false] at h
      obtain ⟨hk, htt, hcols, hl, f, s, hmem, hs, h1, h2, h3⟩ := ih h
      exact ⟨hk, htt, hcols, hl, f, s, by simp [hmem], hs, h1, h2, h3⟩

/-- C2 counterexample: the foreign key declares target column `uuid`
(`fk:users.uuid`), but the belongs-to augmentation joins on `users.id` —
the hard-coded `id`, not the declared target column. -/
theorem c2_counterexample :
    applyRelation uuidConfig "posts" "users" =
      .ok (.belongsTo "users" "users" ["uuid", "name"] "users.id" "posts.authorId") ∧
    "users.id" ≠ "users.uuid" := by
  decide

/-- C2 amended: every belongs-to augmentation embeds a single object under
the include-token key, selects exactly the columns declared in the target
table's schema (never all columns), and joins on
`targetTable.id = sourceTable.<fkField>` — the literal column `id`,
regardless of the target column declared after the dot in the `fk:`
definition. -/
theorem c2_belongs_to_shape (cfg : MockliteConfig) (ct tok k tt : String)
    (cols : List String) (l r : String)
    (h : applyRelation cfg ct tok = .ok (.belongsTo k tt cols l r)) :
    k = tok ∧ cols = getColumns cfg tt ∧ l = tt ++ ".id" ∧
    ∃ t, findTable cfg ct = some t ∧
      ∃ f s, (f, FieldDef.fstr s) ∈ t.fields ∧ strStartsWith s "fk:" = true ∧
        tt = fkTable s ∧ r = ct ++ "." ++ f ∧
        (tok = fkTable s ∨ tok = jsReplaceFirst f "Id") := by
  unfold applyRelation at h
  cases hct : findTable cfg ct with
  | none =>
    rw [hct] at h
    dsimp only at h
    cases hht : findTable cfg tok with
    | none =>
      rw [hht] at h
      cases h
    | some t2 =>
      rw [hht] at h
      dsimp only at h
      cases hhm : hasManyScan cfg ct tok t2.fields with
      | none =>
        rw [hhm] at h
        cases h
      | some r2 =>
        rw [hhm] at h
        obtain ⟨f, hf⟩ := hasManyScan_shape cfg ct tok t2.fields r2 hhm
        rw [hf] at h
        cases h
  | some t =>
    rw [hct] at h
    dsimp only at h
    cases hbs : belongsToScan cfg ct tok t.fields with
    | none =>
      rw [hbs] at h
      dsimp only at h
      cases hht : findTable cfg tok with
      | none =>
        rw [hht] at h
        cases h
      | some t2 =>
        rw [hht] at h
        dsimp only at h
        cases hhm : hasManyScan cfg ct tok t2.fields with
        | none =>
          rw [hhm] at h
          cases h
        | some r2 =>
          rw [hhm] at h
          obtain ⟨f, hf⟩ := hasManyScan_shape cfg ct tok t2.fields r2 hhm
          rw [hf] at h
          cases h
    | some res =>
      rw [hbs] at h
      dsimp only at h
      subst h
      obtain ⟨hk, htt, hcols, hl, f, s, hmem, hs, h1, h2, h3⟩ :=
        belongsToScan_ok_belongsTo cfg ct tok t.fields k tt cols l r hbs
      exact ⟨hk, hcols, hl, t, rfl, f, s, hmem, hs, h1, h2, h3⟩

/-- C2 witness: on the `fk:users.uuid` schema the augmentation's column
list is the target table's declared columns and the join's left side is
the literal `users.id`. -/
theorem c2_witness :
    ["uuid", "name"] = getColumns uuidConfig "users" ∧
    "users.id" = "users" ++ ".id" := by
  have h := c2_belongs_to_shape uuidConfig "posts" "users" "users" "users"
    ["uuid", "name"] "users.id" "posts.authorId" (by decide)
  exact ⟨h.2.1, h.2.2.1⟩

/-- The matching rule as the claim words it: the foreign-key field name
with a TRAILING "Id" suffix stripped (spec-side definition, used only to
exhibit the divergence from the code's first-occurrence removal). -/
def specStripTrailingId (s : String) : String :=
  if listStartsWith s.data.reverse ['d', 'I'] then ⟨(listDrop 2 s.data.reverse).reverse⟩
  else s

/-- C7 counterexample: the field `Identity` contains "Id" at the start and
does not end in "Id"; the code removes the FIRST occurrence, yielding
`entity`, so the token `entity` resolves to a belongs-to — although it
matches neither the target table name (`people`) nor the field name with a
trailing "Id" suffix stripped (which is `Identity` itself), under which
rule the claim requires the base query to be returned unmodified. -/
theorem c7_counterexample :
    applyRelation idConfig "cards" "entity" =
      .ok (.belongsTo "entity" "people" ["id"] "people.id" "cards.Identity") ∧
    "entity" ≠ "people" ∧
    specStripTrailingId "Identity" = "Identity" ∧
    "entity" ≠ "Identity" := by
  decide

/-- C7 amended: belongs-to candidates are checked first in field
declaration order of the source table, the token matching the foreign
key's target table name or the field name with the FIRST occurrence of
"Id" removed (not a trailing suffix; a field without "Id" matches its own
name); if none match, has-many is checked by interpreting the token as a
target table name, scanning that table's fields in declaration order for a
foreign key back to the source; the first structural match wins, and with
no structural match the base query is returned unmodified. -/
theorem c7_resolution_order (cfg : MockliteConfig) (ct tok : String) :
    (∀ t pre f d suf, findTable cfg ct = some t →
      t.fields = pre ++ (f, d) :: suf →
      (∀ x ∈ pre, btMatch tok x.1 x.2 = false) → btMatch tok f d = true →
      applyRelation cfg ct tok = btResult cfg ct tok f d) ∧
    ((∀ t, findTable cfg ct = some t → ∀ x ∈ t.fields, btMatch tok x.1 x.2 = false) →
      ∀ tt pre f d suf, findTable cfg tok = some tt →
        tt.fields = pre ++ (f, d) :: suf →
        (∀ x ∈ pre, hmMatch ct x.2 = false) → hmMatch ct d = true →
        applyRelation cfg ct tok =
          .ok (.hasMany tok tok (getColumns cfg tok) (tok ++ "." ++ f) (ct ++ ".id"))) ∧
    ((∀ t, findTable cfg ct = some t → ∀ x ∈ t.fields, btMatch tok x.1 x.2 = false) →
      (∀ tt, findTable cfg tok = some tt → ∀ x ∈ tt.fields, hmMatch ct x.2 = false) →
      applyRelation cfg ct tok = .ok .noop) := by
  refine ⟨?_, ?_, ?_⟩
  · intro t pre f d suf hct hfields hpre hm
    unfold applyRelation
    rw [hct]
    dsimp only
    rw [hfields, belongsToScan_first cfg ct tok pre f d suf hpre hm]
  · intro hnone tt pre f d suf hht hfields hpre hm
    unfold applyRelation
    cases hct : findTable cfg ct with
    | none =>
      dsimp only
      rw [hht]
      dsimp only
      rw [hfields, hasManyScan_first cfg ct tok pre f d suf hpre hm]
    | some t =>
      dsimp only
      rw [(belongsToScan_none_iff cfg ct tok t.fields).mpr (hnone t hct)]
      dsimp only
      rw [hht]
      dsimp only
      rw [hfields, hasManyScan_first cfg ct tok pre f d suf hpre hm]
  · intro hbt hhm
    unfold applyRelation
    cases hct : findTable cfg ct with
    | none =>
      dsimp only
      cases hht : findTable cfg tok with
      | none => rfl
      | some t2 =>
        dsimp only
        rw [(hasManyScan_none_iff cfg ct tok t2.fields).mpr (hhm t2 hht)]
    | some t =>
      dsimp only
      rw [(belongsToScan_none_iff cfg ct tok t.fields).mpr (hbt t hct)]
      dsimp only
      cases hht : findTable cfg tok with
      | none => rfl
      | some t2 =>
        dsimp only
        rw [(hasManyScan_none_iff cfg ct tok t2.fields).mpr (hhm t2 hht)]

/-- C7 witness: `include=author` on `posts` resolves through the first
matching foreign key in declaration order. -/
theorem c7_witness :
    applyRelation demoConfig "posts" "author" =
      .ok (.belongsTo "author" "users" ["id", "name", "isActive"]
        "users.id" "posts.authorId") := by
  have h := (c7_resolution_order demoConfig "posts" "author").1 postsTable
    [("id", .fstr "pk"), ("title", .fstr "faker.lorem.sentence")]
    "authorId" (.fstr "fk:users.id") [] (by decide) (by decide)
    (by decide) (by decide)
  exact h.trans (by decide)

/- ------------------------------------------------------------------
C4 : row generation respects counts, pk omission, fk integrity, booleans
------------------------------------------------------------------ -/

theorem genField_pk (db : DB) (oracle : String → Option String → Value) (rnd : Nat)
    (key : String) : genField db oracle rnd key (FieldDef.fstr "pk") = .ok none := by
  simp [genField]

theorem genField_some (db : DB) (oracle : String → Option String → Value) (rnd : Nat)
    (key : String) (d : FieldDef) (v? : Option (String × Value))
    (hne : d ≠ FieldDef.fstr "pk")
    (h : genField db oracle rnd key d = .ok v?) : ∃ w, v? = some (key, w) := by
  unfold genField at h
  rw [if_neg hne] at h
  cases d with
  | fstr s =>
    dsimp only at h
    by_cases hfk : strStartsWith s "fk:" = true
    · rw [if_pos hfk] at h
      by_cases ht : fkTail s = ""
      · rw [if_pos ht] at h
        cases h
      · rw [if_neg ht] at h
        by_cases hbad : fkTable s = "" ∨ fkCol s = ""
        · rw [if_pos hbad] at h
          cases h
        · rw [if_neg hbad] at h
          cases hdb : lookupKey (fkTable s) db with
          | none =>
            rw [hdb] at h
            cases h
          | some trows =>
            rw [hdb] at h
            dsimp only at h
            cases hget : trows.get? (rnd % trows.length) with
            | none =>
              rw [hget] at h
              exact ⟨Value.vNull, (Except.ok.inj h).symm⟩
            | some r =>
              rw [hget] at h
              exact ⟨(lookupKey (fkCol s) r).getD Value.vNull, (Except.ok.inj h).symm⟩
    · rw [if_neg hfk] at h
      cases hrv : resolveValue oracle rnd (FieldDef.fstr s) with
      | error e =>
        rw [hrv] at h
        cases h
      | ok v =>
        rw [hrv] at h
        exact ⟨storeCoerce v, (Except.ok.inj h).symm⟩
  | fobj ty o vs =>
    dsimp only at h
    cases hrv : resolveValue oracle rnd (FieldDef.fobj ty o vs) with
    | error e =>
      rw [hrv] at h
      cases h
    | ok v =>
      rw [hrv] at h
      exact ⟨storeCoerce v, (Except.ok.inj h).symm⟩

theorem fkTable_empty_of_tail_empty {s : String} (h : fkTail s = "") :
    fkTable s = "" := by
  unfold fkTable
  rw [h]
  rfl

theorem genField_fk (db : DB) (oracle : String → Option String → Value) (rnd : Nat)
    (key s : String) (trows : List Row)
    (hfk : strStartsWith s "fk:" = true) (htt : fkTable s ≠ "") (htc : fkCol s ≠ "")
    (hdb : lookupKey (fkTable s) db = some trows) :
    genField db oracle rnd key (FieldDef.fstr s) =
      .ok (some (key,
        match trows.get? (rnd % trows.length) with
        | none => Value.vNull
        | some r => (lookupKey (fkCol s) r).getD Value.vNull)) := by
  have hpk : FieldDef.fstr s ≠ FieldDef.fstr "pk" := by
    intro he
    rw [FieldDef.fstr.injEq] at he
    subst he
    exact absurd hfk (by decide)
  have htail : fkTail s ≠ "" := fun he => htt (fkTable_empty_of_tail_empty he)
  unfold genField
  rw [if_neg hpk]
  dsimp only
  rw [if_pos hfk, if_neg htail, if_neg (by simp [htt, htc]), hdb]
  dsimp only
  cases hget : trows.get? (rnd % trows.length) with
  | none => rfl
  | some r => rfl

theorem genField_gen (db : DB) (oracle : String → Option String → Value) (rnd : Nat)
    (key : String) (d : FieldDef) (b : Bool) (hne : d ≠ FieldDef.fstr "pk")
    (hnfk : ∀ s, d = FieldDef.fstr s → strStartsWith s "fk:" = false)
    (hb : resolveValue oracle rnd d = .ok (Value.vBool b)) :
    genField db oracle rnd key d =
      .ok (some (key, Value.vInt (if b then 1 else 0))) := by
  unfold genField
  rw [if_neg hne]
  cases d with
  | fstr s =>
    dsimp only
    rw [if_neg (show ¬strStartsWith s "fk:" = true by
      rw [hnfk s rfl]
      exact Bool.false_ne_true)]
    rw [hb]
    rfl
  | fobj ty o vs =>
    dsimp only
    rw [hb]
    rfl

theorem genFields_keys_mem (db : DB) (oracle : String → Option String → Value)
    (rnd : String → Nat) (fields : List (String × FieldDef)) (row : Row)
    (h : genFields db oracle rnd fields = .ok row) :
    ∀ kv ∈ row, kv.1 ∈ fields.map Prod.fst := by
  induction fields generalizing row with
  | nil =>
    intro kv hkv
    simp only [genFields] at h
    rw [← Except.ok.inj h] at hkv
    cases hkv
  | cons hd tl ih =>
    obtain ⟨k0, d0⟩ := hd
    simp only [genFields] at h
    cases hf : genField db oracle (rnd k0) k0 d0 with
    | error e =>
      rw [hf] at h
      cases h
    | ok v? =>
      rw [hf] at h
      cases hr : genFields db oracle rnd tl with
      | error e =>
        rw [hr] at h
        cases h
      | ok r =>
        rw [hr] at h
        cases v? with
        | none =>
          intro kv hkv
          rw [← Except.ok.inj h] at hkv
          exact List.mem_cons.mpr (Or.inr (ih r hr kv hkv))
        | some kv0 =>
          have hne : d0 ≠ FieldDef.fstr "pk" := by
            intro he
            subst he
            rw [genField_pk] at hf
            cases Except.ok.inj hf
          obtain ⟨w, hw⟩ := genField_some db oracle (rnd k0) k0 d0 (some kv0) hne hf
          intro kv hkv
          rw [← Except.ok.inj h] at hkv
          rcases List.mem_cons.mp hkv with he2 | ht2
          · subst he2
            rw [Option.some.inj hw]
            exact List.mem_cons.mpr (Or.inl rfl)
          · exact List.mem_cons.mpr (Or.inr (ih r hr kv ht2))

theorem genFields_lookup (db : DB) (oracle : String → Option String → Value)
    (rnd : String → Nat) (fields : List (String × FieldDef)) (row : Row)
    (key : String) (d : FieldDef)
    (h : genFields db oracle rnd fields = .ok row)
    (hnd : (fields.map Prod.fst).Nodup)
    (hm : (key, d) ∈ fields) (hne : d ≠ FieldDef.fstr "pk") :
    ∃ w, genField db oracle (rnd key) key d = .ok (some (key, w)) ∧
      lookupKey key row = some w := by
  induction fields generalizing row with
  | nil => cases hm
  | cons hd tl ih =>
    obtain ⟨k0, d0⟩ := hd
    simp only [genFields] at h
    cases hf : genField db oracle (rnd k0) k0 d0 with
    | error e =>
      rw [hf] at h
      cases h
    | ok v? =>
      rw [hf] at h
      cases hr : genFields db oracle rnd tl with
      | error e =>
        rw [hr] at h
        cases h
      | ok r =>
        rw [hr] at h
        rcases List.mem_cons.mp hm with he | ht
        · have hk : key = k0 := congrArg Prod.fst he
          have hd2 : d = d0 := congrArg Prod.snd he
          subst hk
          subst hd2
          obtain ⟨w, hw⟩ := genField_some db oracle (rnd key) key d v? hne hf
          subst hw
          refine ⟨w, hf, ?_⟩
          rw [← Except.ok.inj h]
          simp [lookupKey]
        · have hk0 : k0 ≠ key := by
            intro he2
            subst he2
            exact (List.nodup_cons.mp hnd).1
              (List.mem_map.mpr ⟨(k0, d), ht, rfl⟩)
          obtain ⟨w, hw, hl⟩ := ih r hr (List.nodup_cons.mp hnd).2 ht
          refine ⟨w, hw, ?_⟩
          cases v? with
          | none =>
            rw [← Except.ok.inj h]
            exact hl
          | some kv0 =>
            have hne0 : d0 ≠ FieldDef.fstr "pk" := by
              intro he3
              subst he3
              rw [genField_pk] at hf
              cases Except.ok.inj hf
            obtain ⟨w0, hw0⟩ := genField_some db oracle (rnd k0) k0 d0 (some kv0) hne0 hf
            rw [Option.some.inj hw0] at h
            rw [← Except.ok.inj h]
            simp [lookupKey, hk0, hl]

theorem genFields_pk_absent (db : DB) (oracle : String → Option String → Value)
    (rnd : String → Nat) (fields : List (String × FieldDef)) (row : Row)
    (key : String)
    (h : genFields db oracle rnd fields = .ok row)
    (hnd : (fields.map Prod.fst).Nodup)
    (hm : (key, FieldDef.fstr "pk") ∈ fields) :
    lookupKey key row = none := by
  induction fields generalizing row with
  | nil => cases hm
  | cons hd tl ih =>
    obtain ⟨k0, d0⟩ := hd
    simp only [genFields] at h
    cases hf : genField db oracle (rnd k0) k0 d0 with
    | error e =>
      rw [hf] at h
      cases h
    | ok v? =>
      rw [hf] at h
      cases hr : genFields db oracle rnd tl with
      | error e =>
        rw [hr] at h
        cases h
      | ok r =>
        rw [hr] at h
        rcases List.mem_cons.mp hm with he | ht
        · have hk : key = k0 := congrArg Prod.fst he
          have hd2 : FieldDef.fstr "pk" = d0 := congrArg Prod.snd he
          subst hk
          rw [← hd2] at hf
          rw [genField_pk] at hf
          rw [← Except.ok.inj hf] at h
          rw [← Except.ok.inj h]
          apply lookupKey_eq_none
          intro kv hkv
          intro he2
          apply (List.nodup_cons.mp hnd).1
          rw [← he2]
          exact genFields_keys_mem db oracle rnd tl r hr kv hkv
        · have hk0 : k0 ≠ key := by
            intro he2
            subst he2
            exact (List.nodup_cons.mp hnd).1
              (List.mem_map.mpr ⟨(k0, FieldDef.fstr "pk"), ht, rfl⟩)
          have htail := ih r hr (List.nodup_cons.mp hnd).2 ht
          cases v? with
          | none =>
            rw [← Except.ok.inj h]
            exact htail
          | some kv0 =>
            have hne0 : d0 ≠ FieldDef.fstr "pk" := by
              intro he3
              subst he3
              rw [genField_pk] at hf
              cases Except.ok.inj hf
            obtain ⟨w0, hw0⟩ := genField_some db oracle (rnd k0) k0 d0 (some kv0) hne0 hf
            rw [Option.some.inj hw0] at h
            rw [← Except.ok.inj h]
            simp [lookupKey, hk0, htail]

theorem genRows_length (db : DB) (oracle : String → Option String → Value)
    (rnds : Nat → String → Nat) (fields : List (String × FieldDef)) (n : Nat)
    (rows : List Row)
    (h : genRows db oracle rnds fields n = .ok rows) : rows.length = n := by
  induction n generalizing rows with
  | zero =>
    simp only [genRows] at h
    rw [← Except.ok.inj h]
    rfl
  | succ m ih =>
    simp only [genRows] at h
    cases hf : genFields db oracle (rnds m) fields with
    | error e =>
      rw [hf] at h
      cases h
    | ok r =>
      rw [hf] at h
      cases hr : genRows db oracle rnds fields m with
      | error e =>
        rw [hr] at h
        cases h
      | ok rest =>
        rw [hr] at h
        rw [← Except.ok.inj h]
        simp [ih rest hr]

theorem genRows_mem (db : DB) (oracle : String → Option String → Value)
    (rnds : Nat → String → Nat) (fields : List (String × FieldDef)) (n : Nat)
    (rows : List Row) (row : Row)
    (h : genRows db oracle rnds fields n = .ok rows) (hr : row ∈ rows) :
    ∃ i, genFields db oracle (rnds i) fields = .ok row := by
  induction n generalizing rows with
  | zero =>
    simp only [genRows] at h
    rw [← Except.ok.inj h] at hr
    cases hr
  | succ m ih =>
    simp only [genRows] at h
    cases hf : genFields db oracle (rnds m) fields with
    | error e =>
      rw [hf] at h
      cases h
    | ok r =>
      rw [hf] at h
      cases hrest : genRows db oracle rnds fields m with
      | error e =>
        rw [hrest] at h
        cases h
      | ok rest =>
        rw [hrest] at h
        rw [← Except.ok.inj h] at hr
        rcases List.mem_cons.mp hr with he | ht
        · subst he
          exact ⟨m, hf⟩
        · exact ih rest hrest ht

/-- C4: for every field list, store state and count `n`, a successful
generation run yields exactly `n` rows; in every generated row the
primary-key fields are omitted; every well-formed foreign-key field is
null exactly when the target table has zero committed rows and otherwise
equals the declared target-column value of some committed row of the
target table (provided those committed values are non-null, as the rows
this system commits are); and every boolean value a generator resolves is
stored as integer 1 or 0. -/
theorem c4_generation_contract (db : DB) (oracle : String → Option String → Value)
    (rnds : Nat → String → Nat) (fields : List (String × FieldDef)) (n : Nat)
    (rows : List Row)
    (hok : genRows db oracle rnds fields n = .ok rows)
    (hnd : (fields.map Prod.fst).Nodup) :
    rows.length = n ∧
    (∀ row ∈ rows, ∀ key, (key, FieldDef.fstr "pk") ∈ fields →
      lookupKey key row = none) ∧
    (∀ row ∈ rows, ∀ key s trows,
      (key, FieldDef.fstr s) ∈ fields → strStartsWith s "fk:" = true →
      fkTable s ≠ "" → fkCol s ≠ "" →
      lookupKey (fkTable s) db = some trows →
      (∀ tr ∈ trows, ∃ v, lookupKey (fkCol s) tr = some v ∧ v ≠ Value.vNull) →
      ((lookupKey key row = some Value.vNull ↔ trows = []) ∧
       (trows ≠ [] → ∃ tr ∈ trows, ∃ v, lookupKey (fkCol s) tr = some v ∧
          lookupKey key row = some v))) ∧
    (∀ (rnd : String → Nat) (row : Row),
      genFields db oracle rnd fields = .ok row →
      ∀ key d b, (key, d) ∈ fields → d ≠ FieldDef.fstr "pk" →
      (∀ s, d = FieldDef.fstr s → strStartsWith s "fk:" = false) →
      resolveValue oracle (rnd key) d = .ok (Value.vBool b) →
      lookupKey key row = some (Value.vInt (if b then 1 else 0))) := by
  refine ⟨genRows_length db oracle rnds fields n rows hok, ?_, ?_, ?_⟩
  · intro row hrow key hm
    obtain ⟨i, hi⟩ := genRows_mem db oracle rnds fields n rows row hok hrow
    exact genFields_pk_absent db oracle (rnds i) fields row key hi hnd hm
  · intro row hrow key s trows hm hfk htt htc hdb hnn
    obtain ⟨i, hi⟩ := genRows_mem db oracle rnds fields n rows row hok hrow
    have hne : FieldDef.fstr s ≠ FieldDef.fstr "pk" := by
      intro he
      rw [FieldDef.fstr.injEq] at he
      subst he
      exact absurd hfk (by decide)
    obtain ⟨w, hw, hl⟩ :=
      genFields_lookup db oracle (rnds i) fields row key (FieldDef.fstr s) hi hnd hm hne
    have hfkval := genField_fk db oracle (rnds i key) key s trows hfk htt htc hdb
    rw [hw] at hfkval
    have hwv := Option.some.inj (Except.ok.inj hfkval)
    have hwv2 : w = (match trows.get? (rnds i key % trows.length) with
        | none => Value.vNull
        | some r => (lookupKey (fkCol s) r).getD Value.vNull) :=
      congrArg Prod.snd hwv
    cases trows with
    | nil =>
      have hnone : ([] : List Row).get? (rnds i key % ([] : List Row).length) =
          none := rfl
      have hw0 : w = Value.vNull := by
        rw [hwv2, hnone]
      constructor
      · rw [hl, hw0]
        simp
      · intro hne2
        exact absurd rfl hne2
    | cons a as =>
      have hlt : rnds i key % (a :: as).length < (a :: as).length :=
        Nat.mod_lt _ (Nat.succ_pos _)
      have hget : (a :: as).get? (rnds i key % (a :: as).length) =
          some ((a :: as).get ⟨rnds i key % (a :: as).length, hlt⟩) :=
        List.get?_eq_get hlt
      have hmem2 : (a :: as).get ⟨rnds i key % (a :: as).length, hlt⟩ ∈ a :: as :=
        List.get_mem _ _ _
      obtain ⟨v, hv, hvn⟩ := hnn _ hmem2
      have hwv3 : w = v := by
        rw [hwv2, hget]
        dsimp only
        rw [hv]
        rfl
      constructor
      · rw [hl, hwv3]
        constructor
        · intro he
          exact absurd (Option.some.inj he) hvn
        · intro he
          cases he
      · intro _
        exact ⟨_, hmem2, v, hv, by rw [hl, hwv3]⟩
  · intro rnd row hrow key d b hm hne hnfk hb
    obtain ⟨w, hw, hl⟩ := genFields_lookup db oracle rnd fields row key d hrow hnd hm hne
    have hg := genField_gen db oracle (rnd key) key d b hne hnfk hb
    rw [hw] at hg
    have hw2 : w = Value.vInt (if b then 1 else 0) :=
      congrArg Prod.snd (Option.some.inj (Except.ok.inj hg))
    rw [hl, hw2]

/-- C4 witness: two rows generated for `posts` against a `users` table with
two committed rows. -/
theorem c4_witness :
    ([[("title", Value.vStr "t"), ("authorId", Value.vInt 2)],
      [("title", Value.vStr "t"), ("authorId", Value.vInt 1)]] : List Row).length = 2 ∧
    lookupKey "id" ([("title", Value.vStr "t"), ("authorId", Value.vInt 2)] : Row) =
      none ∧
    (lookupKey "authorId"
        ([("title", Value.vStr "t"), ("authorId", Value.vInt 2)] : Row) =
        some Value.vNull ↔
      ([[("id", Value.vInt 1)], [("id", Value.vInt 2)]] : List Row) = []) := by
  have h := c4_generation_contract
    [("users", [[("id", Value.vInt 1)], [("id", Value.vInt 2)]]), ("posts", [])]
    (fun _ _ => Value.vStr "t") (fun i _ => i) postsTable.fields 2
    [[("title", Value.vStr "t"), ("authorId", Value.vInt 2)],
     [("title", Value.vStr "t"), ("authorId", Value.vInt 1)]]
    (by decide) (by decide)
  refine ⟨h.1, ?_, ?_⟩
  · exact h.2.1 [("title", Value.vStr "t"), ("authorId", Value.vInt 2)]
      (by decide) "id" (by decide)
  · exact (h.2.2.1 [("title", Value.vStr "t"), ("authorId", Value.vInt 2)]
      (by decide) "authorId" "fk:users.id"
      [[("id", Value.vInt 1)], [("id", Value.vInt 2)]]
      (by decide) (by decide) (by decide) (by decide) (by decide) (by decide)).1

/- ------------------------------------------------------------------
C8 : create / detail round-trip
------------------------------------------------------------------ -/

theorem pkStep_ge (p : String) (m : Int) (r : Row) : m ≤ pkStep p m r := by
  unfold pkStep
  cases lookupKey p r with
  | none => exact le_refl m
  | some v =>
    cases v with
    | vInt n => exact le_max_left m n
    | vNull => exact le_refl m
    | vStr s => exact le_refl m
    | vBool b => exact le_refl m

theorem foldl_pkStep_ge_init (p : String) (rows : List Row) :
    ∀ m : Int, m ≤ rows.foldl (pkStep p) m := by
  induction rows with
  | nil => intro m; exact le_refl m
  | cons hd tl ih =>
    intro m
    exact le_trans (pkStep_ge p m hd) (ih (pkStep p m hd))

theorem foldl_pkStep_ge_mem (p : String) (rows : List Row) (r : Row) (n : Int)
    (hr : r ∈ rows) (hv : lookupKey p r = some (Value.vInt n)) :
    ∀ m : Int, n ≤ rows.foldl (pkStep p) m := by
  induction rows with
  | nil => cases hr
  | cons hd tl ih =>
    intro m
    simp only [List.foldl_cons]
    rcases List.mem_cons.mp hr with he | ht
    · subst he
      refine le_trans ?_ (foldl_pkStep_ge_init p tl (pkStep p m r))
      unfold pkStep
      rw [hv]
      exact le_max_right m n
    · exact ih ht (pkStep p m hd)

theorem maxPk_ge (p : String) (rows : List Row) (r : Row) (n : Int)
    (hr : r ∈ rows) (hv : lookupKey p r = some (Value.vInt n)) :
    n ≤ maxPk p rows :=
  foldl_pkStep_ge_mem p rows r n hr hv 0

theorem find?_append_right {α : Type} (p : α → Bool) (l1 l2 : List α)
    (h : ∀ x ∈ l1, p x = false) : (l1 ++ l2).find? p = l2.find? p := by
  induction l1 with
  | nil => rfl
  | cons hd tl ih =>
    have h0 := h hd (by simp)
    simp only [List.cons_append, List.find?, h0]
    exact ih (fun x hx => h x (by simp [hx]))

theorem rowIdMatches_new (body : Row) (nid : Int) (idStr : String)
    (hid : sqliteTextToInt idStr = some nid) :
    rowIdMatches (("id", Value.vInt nid) :: body) idStr = true := by
  unfold rowIdMatches
  simp [lookupKey, hid]

theorem rowIdMatches_old (r : Row) (m nid : Int) (idStr : String)
    (hv : lookupKey "id" r = some (Value.vInt m))
    (hid : sqliteTextToInt idStr = some nid) (hne : m ≠ nid) :
    rowIdMatches r idStr = false := by
  unfold rowIdMatches
  rw [hv, hid]
  simp [hne]

theorem lookupKey_rowToJ (k : String) (r : Row) :
    lookupKey k (rowToJ r) = (lookupKey k r).map JVal.base := by
  induction r with
  | nil => rfl
  | cons hd tl ih =>
    obtain ⟨a, b⟩ := hd
    by_cases ha : a = k
    · subst ha
      simp [rowToJ, lookupKey]
    · simp [rowToJ, lookupKey, ha] at ih ⊢
      exact ih

/-- C8 counterexample: creating a users row and fetching it back by the
returned primary key yields responses that differ on the primary-key field
itself: create presents `id` as the STRING "1" (`insertId.toString()`),
detail presents the stored INTEGER 1 — so the responses are not
field-for-field equal including the primary key, as the claim requires. -/
theorem c8_counterexample :
    createHandler demoConfig [("users", [])] usersTable
      [("name", Value.vStr "Ada"), ("isActive", Value.vInt 1)] =
    .ok ([("users", [[("id", Value.vInt 1), ("name", Value.vStr "Ada"),
            ("isActive", Value.vInt 1)]])],
         [("id", JVal.base (Value.vStr "1")),
          ("name", JVal.base (Value.vStr "Ada")),
          ("isActive", JVal.base (Value.vBool true))]) ∧
    detailHandler demoConfig
      [("users", [[("id", Value.vInt 1), ("name", Value.vStr "Ada"),
          ("isActive", Value.vInt 1)]])] usersTable "1" =
    some [("id", JVal.base (Value.vInt 1)),
          ("name", JVal.base (Value.vStr "Ada")),
          ("isActive", JVal.base (Value.vBool true))] ∧
    JVal.base (Value.vStr "1") ≠ JVal.base (Value.vInt 1) := by
  decide

/-- C8 amended: a row created via the create endpoint and fetched via the
detail endpoint by the primary key returned from create yields
field-for-field equal values modulo the boolean presentation mapping for
every field EXCEPT the primary key; the primary key's numeric value
matches, but create presents it as a decimal string while detail presents
the stored integer. -/
theorem c8_create_detail_roundtrip (cfg : MockliteConfig) (db : DB)
    (t : TableSchema) (rows : List Row) (body : Row) (idStr : String)
    (hpk : pkFieldName t = some "id")
    (hrows : lookupKey t.table db = some rows)
    (hwf : ∀ r ∈ rows, ∃ m, lookupKey "id" r = some (Value.vInt m))
    (_hbody : lookupKey "id" body = none)
    (hstore : body.all (fun kv => storable kv.2) = true)
    (hbf : "id" ∉ booleanFields cfg t.table)
    (hid : sqliteTextToInt idStr = some (maxPk "id" rows + 1)) :
    createHandler cfg db t body =
      .ok (setKey t.table
            (rows ++ [("id", Value.vInt (maxPk "id" rows + 1)) :: body]) db,
        transformRow cfg t.table
          (rowToJ (("id", Value.vStr (toString (maxPk "id" rows + 1))) :: body))) ∧
    detailHandler cfg
        (setKey t.table
          (rows ++ [("id", Value.vInt (maxPk "id" rows + 1)) :: body]) db)
        t idStr =
      some (transformRow cfg t.table
        (rowToJ (("id", Value.vInt (maxPk "id" rows + 1)) :: body))) ∧
    (∀ k, k ≠ "id" →
      lookupKey k (transformRow cfg t.table
        (rowToJ (("id", Value.vStr (toString (maxPk "id" rows + 1))) :: body))) =
      lookupKey k (transformRow cfg t.table
        (rowToJ (("id", Value.vInt (maxPk "id" rows + 1)) :: body)))) ∧
    lookupKey "id" (transformRow cfg t.table
        (rowToJ (("id", Value.vStr (toString (maxPk "id" rows + 1))) :: body))) =
      some (JVal.base (Value.vStr (toString (maxPk "id" rows + 1)))) ∧
    lookupKey "id" (transformRow cfg t.table
        (rowToJ (("id", Value.vInt (maxPk "id" rows + 1)) :: body))) =
      some (JVal.base (Value.vInt (maxPk "id" rows + 1))) := by
  have hbfc : (booleanFields cfg t.table).contains "id" = false := by
    rw [← Bool.not_eq_true, strListContains_iff]
    exact hbf
  have hfalse : ∀ r ∈ rows, rowIdMatches r idStr = false := by
    intro r hr
    obtain ⟨m, hm⟩ := hwf r hr
    refine rowIdMatches_old r m (maxPk "id" rows + 1) idStr hm hid ?_
    intro he
    have hle := maxPk_ge "id" rows r m hr hm
    omega
  refine ⟨?_, ?_, ?_, ?_, ?_⟩
  · unfold createHandler
    rw [if_pos hstore, hrows]
    dsimp only
    rw [hpk]
    rfl
  · have hlookup : lookupKey t.table
        (setKey t.table (rows ++ [("id", Value.vInt (maxPk "id" rows + 1)) :: body]) db) =
        some (rows ++ [("id", Value.vInt (maxPk "id" rows + 1)) :: body]) := by
      rw [lookupKey_setKey_self, hrows]
      rfl
    unfold detailHandler
    rw [hlookup]
    dsimp only
    rw [find?_append_right _ rows _ hfalse]
    simp [List.find?, rowIdMatches_new body (maxPk "id" rows + 1) idStr hid]
  · intro k hk
    have hne : ("id" = k) = False := eq_false (fun he => hk he.symm)
    rw [transformRow_lookup, transformRow_lookup,
      lookupKey_rowToJ, lookupKey_rowToJ]
    simp only [lookupKey, hne, if_false]
  · rw [transformRow_lookup, lookupKey_rowToJ]
    simp only [lookupKey, if_true, Option.map_some']
    rw [if_neg (by rw [hbfc]; exact Bool.false_ne_true)]
  · rw [transformRow_lookup, lookupKey_rowToJ]
    simp only [lookupKey, if_true, Option.map_some']
    rw [if_neg (by rw [hbfc]; exact Bool.false_ne_true)]

/-- C8 witness: the concrete round-trip on a fresh users table. -/
theorem c8_witness :
    createHandler demoConfig [("users", [])] usersTable
      [("name", Value.vStr "Bo"), ("isActive", Value.vInt 0)] =
      .ok (setKey "users"
            ([] ++ [("id", Value.vInt 1) ::
              [("name", Value.vStr "Bo"), ("isActive", Value.vInt 0)]])
            [("users", [])],
        transformRow demoConfig "users"
          (rowToJ (("id", Value.vStr "1") ::
            [("name", Value.vStr "Bo"), ("isActive", Value.vInt 0)]))) ∧
    lookupKey "isActive" (transformRow demoConfig "users"
        (rowToJ (("id", Value.vStr "1") ::
          [("name", Value.vStr "Bo"), ("isActive", Value.vInt 0)]))) =
      lookupKey "isActive" (transformRow demoConfig "users"
        (rowToJ (("id", Value.vInt 1) ::
          [("name", Value.vStr "Bo"), ("isActive", Value.vInt 0)]))) := by
  have h := c8_create_detail_roundtrip demoConfig [("users", [])] usersTable []
    [("name", Value.vStr "Bo"), ("isActive", Value.vInt 0)] "1"
    (by decide) (by decide) (fun r hr => absurd hr (List.not_mem_nil r)) (by decide)
    (by decide) (by decide) (by decide)
  exact ⟨h.1, h.2.2.1 "isActive" (by decide)⟩

end Mocklite

/- Sanity examples for the embedding (concrete evaluations). -/

example : Mocklite.strContains "faker.number.int" "number" = true := by decide
example : Mocklite.strContains "fk:users.id" "int" = false := by decide
example : Mocklite.jsReplaceFirst "authorId" "Id" = "author" := by decide
example : Mocklite.jsReplaceFirst "Identity" "Id" = "entity" := by decide
example : Mocklite.jsSplitChar "fk:users.id" ':' = ["fk", "users.id"] := by decide
example : Mocklite.strToIntOpt "-3" = some (-3) := by decide
example : Mocklite.jsOr (Mocklite.strToIntOpt "-3") 1 = -3 := by decide
example : Mocklite.jsOr (Mocklite.strToIntOpt "0") 1 = 1 := by decide
example : Mocklite.jsOr (Mocklite.strToIntOpt "abc") 1 = 1 := by decide
example : Mocklite.jsCeilDiv 10 3 = 4 := by decide
example : Mocklite.jsCeilDiv 5 (-3) = -1 := by decide
example :
    Mocklite.parseField "authorId" (.fstr "fk:users.id") =
      .ok ⟨"authorId", .integer, false, false, some ("users", "id"), true⟩ := by
  decide
example :
    Mocklite.parseField "uid" (.fstr "fk:users") =
      .ok ⟨"uid", .integer, false, false, some ("users", "undefined"), true⟩ := by
  decide
example : toString (1 : Int) = "1" := by decide
example :
    Mocklite.genRows
      [("users", [[("id", Mocklite.Value.vInt 1)], [("id", Mocklite.Value.vInt 2)]]),
       ("posts", [])]
      (fun _ _ => Mocklite.Value.vStr "t") (fun i _ => i)
      Mocklite.postsTable.fields 2 =
    .ok [[("title", Mocklite.Value.vStr "t"), ("authorId", Mocklite.Value.vInt 2)],
         [("title", Mocklite.Value.vStr "t"), ("authorId", Mocklite.Value.vInt 1)]] := by
  decide
example :
    Mocklite.createHandler Mocklite.demoConfig [("users", [])] Mocklite.usersTable
      [("name", Mocklite.Value.vStr "Ada"), ("isActive", Mocklite.Value.vInt 1)] =
    .ok ([("users", [[("id", Mocklite.Value.vInt 1), ("name", Mocklite.Value.vStr "Ada"),
            ("isActive", Mocklite.Value.vInt 1)]])],
         [("id", Mocklite.JVal.base (Mocklite.Value.vStr "1")),
          ("name", Mocklite.JVal.base (Mocklite.Value.vStr "Ada")),
          ("isActive", Mocklite.JVal.base (Mocklite.Value.vBool true))]) := by
  decide
